import Mathlib

/-!
Verification development for the booster source-reconciliation core.

The Go code is embedded shallowly:
* `core.Source` becomes the structure `Source` (a name plus an MTU hint; the
  dial capability is irrelevant to the verified claims);
* the Go `map[string]core.Source` values built inside `Diff` become
  association lists with cons-insertion and key-presence lookup;
* the `Hooker` fault registry (`map[string]*hookErr` under a mutex) becomes a
  total function `String → Option hookErr`; the mutex disappears because every
  verified scenario is a sequential trace;
* `Listener.Poll` becomes a pure state transformer over the store list and the
  fault map, additionally emitting the trace of `Put` / `Del` / `HookErr`
  calls it performs;
* `Listener.Run` becomes a fuel-indexed loop over an oracle of per-cycle poll
  outcomes and an oracle telling at which iterations the outer context is
  observed cancelled;
* `time.Time` is an abstract `Nat` tick; Go `error` values are `String`s,
  a `nil` error being `Option.none` where the distinction matters.
-/

/-- Embedding of `core.Source`: a named, dial-capable egress endpoint.
Only the stable name and the MTU hint are kept; the dial capability plays no
role in the claims under verification. -/
structure Source where
  name : String
  mtu : Int
deriving DecidableEq, Repr

/-- Modelled from the spec: `source.Confidence` is declared outside the given
files; the spec describes it as the ordered enumeration \{Low, High\} of rigor
levels for a connectivity check. -/
inductive Confidence where
  | Low
  | High
deriving DecidableEq, Repr

/-- Embedding of `Diff` (listener package): builds the two name-keyed Go maps
`oldm` and `curm` (association lists, later-insertion first; only key presence
is ever consulted), then walks `old` appending to `remove` every source whose
name is absent from `curm`, and walks `cur` appending to `add` every source
whose name is absent from `oldm`. Returns `(add, remove)`. -/
def Diff (old cur : List Source) : List Source × List Source :=
  let oldm := old.foldl (fun m v => (v.name, v) :: m) ([] : List (String × Source))
  let curm := cur.foldl (fun m v => (v.name, v) :: m) ([] : List (String × Source))
  let remove := old.foldl
    (fun acc v => if curm.any (fun p => p.1 == v.name) then acc else acc ++ [v]) []
  let add := cur.foldl
    (fun acc v => if oldm.any (fun p => p.1 == v.name) then acc else acc ++ [v]) []
  (add, remove)

/-- Key presence in the association list built by `Diff` coincides with name
presence in the originating source list. -/
theorem sourceMap_any (l : List Source) (m : List (String × Source)) (n : String) :
    (l.foldl (fun m v => (v.name, v) :: m) m).any (fun p => p.1 == n)
      = (l.any (fun v => v.name == n) || m.any (fun p => p.1 == n)) := by
  induction l generalizing m with
  | nil => simp
  | cons v rest ih =>
      simp only [List.foldl_cons, List.any_cons, ih, List.any_cons]
      simp [Bool.or_assoc, Bool.or_comm, Bool.or_left_comm]

/-- The append-accumulator loops inside `Diff` compute a `filter`. -/
theorem foldl_append_if (p : Source → Bool) (l acc : List Source) :
    l.foldl (fun acc v => if p v then acc else acc ++ [v]) acc
      = acc ++ l.filter (fun v => !p v) := by
  induction l generalizing acc with
  | nil => simp
  | cons v rest ih =>
      cases hp : p v <;> simp [List.foldl_cons, hp, ih, List.filter_cons]

/-- Closed form of `Diff`: each returned list is a name-based filter of its
input list. -/
theorem Diff_eq (old cur : List Source) :
    Diff old cur
      = (cur.filter (fun v => !old.any (fun w => w.name == v.name)),
         old.filter (fun v => !cur.any (fun w => w.name == v.name))) := by
  unfold Diff
  simp only [sourceMap_any, List.any_nil, Bool.or_false, foldl_append_if, List.nil_append]

/-- C1: For source lists `old` and `cur` whose names are distinct within each
list, `Diff old cur = (add, remove)` where `add` holds exactly the sources of
`cur` whose name appears in no source of `old`, `remove` holds exactly the
sources of `old` whose name appears in no source of `cur`, and
`Diff X X = ([], [])` for every `X`. -/
theorem C1_diff_set_difference (old cur : List Source)
    (hold : (old.map Source.name).Nodup)
    (hcur : (cur.map Source.name).Nodup) :
    (∀ v, v ∈ (Diff old cur).1 ↔ v ∈ cur ∧ ∀ w ∈ old, w.name ≠ v.name)
    ∧ (∀ v, v ∈ (Diff old cur).2 ↔ v ∈ old ∧ ∀ w ∈ cur, w.name ≠ v.name)
    ∧ (∀ X : List Source, Diff X X = ([], [])) := by
  refine ⟨?_, ?_, ?_⟩
  · intro v
    simp only [Diff_eq, List.mem_filter, Bool.not_eq_true', List.any_eq_false, beq_iff_eq]
  · intro v
    simp only [Diff_eq, List.mem_filter, Bool.not_eq_true', List.any_eq_false, beq_iff_eq]
  · intro X
    simp only [Diff_eq, Prod.mk.injEq]
    constructor <;>
      · rw [List.filter_eq_nil_iff]
        intro v hv
        simp only [Bool.not_eq_true', List.any_eq_false, beq_iff_eq, not_forall]
        exact ⟨v, hv, by simp⟩

/-- C1 witness. -/
theorem C1_diff_set_difference_witness :
    let old : List Source := [⟨"eth0", 1500⟩, ⟨"wlan0", 1400⟩]
    let cur : List Source := [⟨"wlan0", 1400⟩, ⟨"tun0", 1300⟩]
    (∀ v, v ∈ (Diff old cur).1 ↔ v ∈ cur ∧ ∀ w ∈ old, w.name ≠ v.name)
    ∧ (∀ v, v ∈ (Diff old cur).2 ↔ v ∈ old ∧ ∀ w ∈ cur, w.name ≠ v.name)
    ∧ (∀ X : List Source, Diff X X = ([], [])) :=
  C1_diff_set_difference _ _ (by decide) (by decide)

/-- Embedding of the `hookErr` record of the listener package: one live dial
failure. `receivedAt` is an abstract clock tick standing for `time.Time`, and
the wrapped Go `error` is a string. -/
structure hookErr where
  receivedAt : Nat
  ref : String
  network : String
  address : String
  err : String
deriving DecidableEq, Repr

/-- Embedding of `Hooker`: the lock-guarded `map[string]*hookErr` keyed by
source name, as a total function to `Option`. The stored pointers are produced
only by `HandleDialErr`, hence never nil, so `none` models absence. -/
abbrev Hooker := String → Option hookErr

/-- The freshly made empty fault map (`make(map[string]*hookErr)`). -/
def Hooker.emptyMap : Hooker := fun _ => none

/-- Embedding of `Hooker.Add`: `h.hooked[err.ref] = err`, overwriting any
previous fault stored under the same name. -/
def Hooker.Add (h : Hooker) (e : hookErr) : Hooker :=
  fun id => if id = e.ref then some e else h id

/-- Embedding of `Hooker.HookErr`: look the name up; if a fault is present,
delete it and return it, otherwise return nil. The pair is (returned error,
map after the call). -/
def Hooker.HookErr (h : Hooker) (id : String) : Option hookErr × Hooker :=
  match h id with
  | some e => (some e, fun j => if j = id then none else h j)
  | none => (none, h)

/-- Embedding of `Hooker.HandleDialErr`: build a `hookErr` from the callback
arguments and `Add` it. The struct literal in the source sets `receivedAt`,
`ref`, `network` and `err` but omits the `address` field, which therefore
stays at Go's zero string — the `address` argument is only logged. -/
def Hooker.HandleDialErr (h : Hooker) (now : Nat)
    (ref network address err : String) : Hooker :=
  Hooker.Add h { receivedAt := now, ref := ref, network := network,
                 address := "", err := err }

/-- `HookErr` returns exactly what the map holds at the queried name. -/
theorem HookErr_fst (h : Hooker) (k : String) :
    (Hooker.HookErr h k).1 = h k := by
  unfold Hooker.HookErr
  cases hk : h k <;> simp

/-- After `HookErr k`, the map holds nothing at `k` and is unchanged
elsewhere. -/
theorem HookErr_snd (h : Hooker) (k n : String) :
    (Hooker.HookErr h k).2 n = if n = k then none else h n := by
  unfold Hooker.HookErr
  cases hk : h k with
  | none =>
      simp only
      split
      · next heq => rw [heq]; exact hk
      · rfl
  | some e => simp only

/-- C2: After one `Add` of a fault for a name, the first `HookErr` call for
that name returns the stored fault and deletes it, and an immediately
following `HookErr` call for the same name, with no fault recorded in
between, returns nil. -/
theorem C2_fault_consumed_once (h : Hooker) (e : hookErr) :
    (Hooker.HookErr (Hooker.Add h e) e.ref).1 = some e
    ∧ (Hooker.HookErr (Hooker.HookErr (Hooker.Add h e) e.ref).2 e.ref).1
        = none := by
  constructor
  · rw [HookErr_fst]; simp [Hooker.Add]
  · rw [HookErr_fst, HookErr_snd]; simp

/-- C6: the fault record retained by `HandleDialErr` does NOT contain the
address that was passed: the struct literal in the source omits the `address`
field, so the stored record carries the empty string where the spec requires
the dial's address. Evaluated at a concrete call, the record stored under
"eth0" has `address = ""` although `"93.184.216.34:443"` was supplied. -/
theorem C6_address_dropped :
    Hooker.HandleDialErr Hooker.emptyMap 7 "eth0" "tcp" "93.184.216.34:443"
        "connection refused" "eth0"
      = some { receivedAt := 7, ref := "eth0", network := "tcp",
               address := "", err := "connection refused" } := by
  simp [Hooker.HandleDialErr, Hooker.Add, Hooker.emptyMap]

/-- Modelled from the spec: the `Store` implementation (`store.SourceStore`) is
outside the given files — the listener only sees the interface `Put`, `Del`,
`GetActive`. Per the spec the store is the authoritative in-memory active
list, keyed by the sources' unique names, and `GetActive` returns a snapshot
of it; the model is the list itself. -/
abbrev Store := List Source

/-- Modelled from the spec: `Put` admits a source into the active list,
keeping names unique (an entry with the same name is replaced). -/
def Store.Put (st : Store) (v : Source) : Store :=
  st.filter (fun w => w.name != v.name) ++ [v]

/-- Modelled from the spec: `Del` removes the active entry carrying the given
source's name. -/
def Store.Del (st : Store) (v : Source) : Store :=
  st.filter (fun w => w.name != v.name)

/-- One observable call `Poll` makes on its collaborators: a `Put` or `Del`
on the store, or a fault consumption (`HookErr`) on the registry. -/
inductive Event where
  | put (v : Source)
  | del (v : Source)
  | consume (n : String)
deriving DecidableEq, Repr

/-- One cycle's environment: the Provider's behavior during this `Poll` call.
`provide` is the outcome of `Provide`; `check v c = true` means
`Check(ctx, v, c)` returns nil (connectivity confirmed). -/
structure PollEnv where
  provide : Except String (List Source)
  check : Source → Confidence → Bool

/-- A store together with the trace of calls that produced it. -/
structure StoreTrace where
  store : Store
  events : List Event

/-- Embedding of Poll's admission loop: for each source of `add`, run a
High-confidence `Check`; on success `Put` it, on failure skip it. -/
def pollAdd (check : Source → Confidence → Bool) :
    List Source → Store → StoreTrace
  | [], st => { store := st, events := [] }
  | v :: rest, st =>
    if check v .High then
      let r := pollAdd check rest (Store.Put st v)
      { store := r.store, events := .put v :: r.events }
    else
      pollAdd check rest st

/-- Result of the removal loop: store, fault map and trace. -/
structure RemoveTrace where
  store : Store
  hooker : Hooker
  events : List Event

/-- Embedding of Poll's removal loop: each source of `remove` is `Del`eted
from the store and its pending hook error consumed. -/
def pollRemove : List Source → Store → Hooker → RemoveTrace
  | [], st, h => { store := st, hooker := h, events := [] }
  | v :: rest, st, h =>
    let r := pollRemove rest (Store.Del st v) (Hooker.HookErr h v.name).2
    { store := r.store, hooker := r.hooker,
      events := .del v :: .consume v.name :: r.events }

/-- Result of the fault-collection loop: the suspects, the fault map and the
trace. -/
structure SuspectTrace where
  acc : List Source
  hooker : Hooker
  events : List Event

/-- Embedding of Poll's fault-collection loop: every currently active source
has its hook error looked up (and thereby consumed); the ones that had one
are accumulated. -/
def pollSuspects : List Source → Hooker → SuspectTrace
  | [], h => { acc := [], hooker := h, events := [] }
  | src :: rest, h =>
    let e := (Hooker.HookErr h src.name).1
    let r := pollSuspects rest (Hooker.HookErr h src.name).2
    { acc := match e with | some _ => src :: r.acc | none => r.acc,
      hooker := r.hooker,
      events := .consume src.name :: r.events }

/-- Embedding of Poll's re-validation loop: each suspect is `Check`ed again at
High confidence and `Del`eted exactly when the check fails. -/
def pollRecheck (check : Source → Confidence → Bool) :
    List Source → Store → StoreTrace
  | [], st => { store := st, events := [] }
  | v :: rest, st =>
    if check v .High then
      pollRecheck check rest st
    else
      let r := pollRecheck check rest (Store.Del st v)
      { store := r.store, events := .del v :: r.events }

/-- Outcome of one `Poll` call: the returned error (if any), the final store
and fault map, and the trace of store / registry calls made. -/
structure PollResult where
  err : Option String
  store : Store
  hooker : Hooker
  events : List Event

/-- Embedding of `Listener.Poll`: fetch `cur` from the Provider (an error
aborts the cycle), read the active list, `Diff`, admit the checked `add`
sources, remove the `remove` sources consuming their faults, re-read the
active list, collect the suspects by consuming every active source's pending
fault, and delete each suspect whose re-check fails. -/
def Poll (env : PollEnv) (st : Store) (h : Hooker) : PollResult :=
  match env.provide with
  | .error e => { err := some e, store := st, hooker := h, events := [] }
  | .ok cur =>
    let d := Diff st cur
    let a := pollAdd env.check d.1 st
    let r := pollRemove d.2 a.store h
    let s := pollSuspects r.store r.hooker
    let f := pollRecheck env.check s.acc r.store
    { err := none, store := f.store, hooker := s.hooker,
      events := a.events ++ r.events ++ s.events ++ f.events }

/-- Consecutive `Poll` cycles, one environment per cycle; errors are only
logged by `Run`, so the state threads through regardless. -/
def pollMany : List PollEnv → Store → Hooker → Store × Hooker
  | [], st, h => (st, h)
  | env :: rest, st, h =>
    let r := Poll env st h
    pollMany rest r.store r.hooker

/-- Membership after `Put`. -/
theorem mem_Put (st : Store) (v w : Source) :
    w ∈ Store.Put st v ↔ (w ∈ st ∧ w.name ≠ v.name) ∨ w = v := by
  simp [Store.Put, List.mem_filter, bne_iff_ne]

/-- Membership after `Del`. -/
theorem mem_Del (st : Store) (v w : Source) :
    w ∈ Store.Del st v ↔ w ∈ st ∧ w.name ≠ v.name := by
  simp [Store.Del, List.mem_filter, bne_iff_ne]

/-- `Put` keeps active names duplicate-free. -/
theorem nodup_names_Put (st : Store) (v : Source)
    (h : (st.map Source.name).Nodup) :
    ((Store.Put st v).map Source.name).Nodup := by
  unfold Store.Put
  rw [List.map_append, List.map_singleton]
  refine List.Nodup.append ?_ (List.nodup_singleton _) ?_
  · exact ((List.filter_sublist st).map Source.name).nodup h
  · intro n hn hmem
    rw [List.mem_singleton] at hmem
    subst hmem
    obtain ⟨w, hw, hwn⟩ := List.mem_map.mp hn
    have := List.of_mem_filter hw
    rw [bne_iff_ne] at this
    exact this hwn

/-- `Del` keeps active names duplicate-free. -/
theorem nodup_names_Del (st : Store) (v : Source)
    (h : (st.map Source.name).Nodup) :
    ((Store.Del st v).map Source.name).Nodup :=
  ((List.filter_sublist st).map Source.name).nodup h

/-- A `Put` event appears in the admission trace exactly for the candidates
whose High-confidence check succeeded. -/
theorem pollAdd_put_mem (check : Source → Confidence → Bool)
    (l : List Source) (st : Store) (v : Source) :
    Event.put v ∈ (pollAdd check l st).events
      ↔ v ∈ l ∧ check v .High = true := by
  induction l generalizing st with
  | nil => simp [pollAdd]
  | cons w rest ih =>
      cases hc : check w .High with
      | true =>
          rw [pollAdd, if_pos hc]
          simp only [List.mem_cons, ih, Event.put.injEq]
          constructor
          · rintro (rfl | ⟨hv, hcv⟩)
            · exact ⟨Or.inl rfl, hc⟩
            · exact ⟨Or.inr hv, hcv⟩
          · rintro ⟨rfl | hv, hcv⟩
            · exact Or.inl rfl
            · exact Or.inr ⟨hv, hcv⟩
      | false =>
          rw [pollAdd, if_neg (by simp [hc])]
          simp only [ih, List.mem_cons]
          constructor
          · rintro ⟨hv, hcv⟩
            exact ⟨Or.inr hv, hcv⟩
          · rintro ⟨rfl | hv, hcv⟩
            · rw [hcv] at hc; cases hc
            · exact ⟨hv, hcv⟩

/-- The admission trace contains no `Del` events. -/
theorem pollAdd_no_del (check : Source → Confidence → Bool)
    (l : List Source) (st : Store) (v : Source) :
    Event.del v ∉ (pollAdd check l st).events := by
  induction l generalizing st with
  | nil => simp [pollAdd]
  | cons w rest ih =>
      cases hc : check w .High with
      | true => rw [pollAdd, if_pos hc]; simp [ih]
      | false => rw [pollAdd, if_neg (by simp [hc])]; exact ih _

/-- A candidate whose check fails is never introduced by the admission
loop. -/
theorem pollAdd_not_mem (check : Source → Confidence → Bool)
    (l : List Source) (st : Store) (v : Source)
    (hc : check v .High = false) (hst : v ∉ st) :
    v ∉ (pollAdd check l st).store := by
  induction l generalizing st with
  | nil => simpa [pollAdd] using hst
  | cons w rest ih =>
      cases hw : check w .High with
      | true =>
          rw [pollAdd, if_pos hw]
          refine ih _ ?_
          rw [mem_Put]
          rintro (⟨hv, _⟩ | rfl)
          · exact hst hv
          · rw [hc] at hw; cases hw
      | false =>
          rw [pollAdd, if_neg (by simp [hw])]
          exact ih _ hst

/-- Every member of the admission loop's output was already active or is one
of the admitted candidates. -/
theorem pollAdd_mem_of (check : Source → Confidence → Bool)
    (l : List Source) (st : Store) (w : Source)
    (hw : w ∈ (pollAdd check l st).store) :
    w ∈ st ∨ w ∈ l := by
  induction l generalizing st with
  | nil => exact Or.inl (by simpa [pollAdd] using hw)
  | cons u rest ih =>
      cases hu : check u .High with
      | true =>
          rw [pollAdd, if_pos hu] at hw
          rcases ih _ hw with hmem | hmem
          · rw [mem_Put] at hmem
            rcases hmem with ⟨hmem, _⟩ | rfl
            · exact Or.inl hmem
            · exact Or.inr (List.mem_cons_self _ _)
          · exact Or.inr (List.mem_cons_of_mem _ hmem)
      | false =>
          rw [pollAdd, if_neg (by simp [hu])] at hw
          rcases ih _ hw with hmem | hmem
          · exact Or.inl hmem
          · exact Or.inr (List.mem_cons_of_mem _ hmem)

/-- Admission keeps active names duplicate-free. -/
theorem nodup_names_pollAdd (check : Source → Confidence → Bool)
    (l : List Source) (st : Store)
    (h : (st.map Source.name).Nodup) :
    (((pollAdd check l st).store.map Source.name)).Nodup := by
  induction l generalizing st with
  | nil => simpa [pollAdd] using h
  | cons w rest ih =>
      cases hc : check w .High with
      | true =>
          rw [pollAdd, if_pos hc]
          exact ih _ (nodup_names_Put st w h)
      | false =>
          rw [pollAdd, if_neg (by simp [hc])]
          exact ih _ h

/-- Membership after the removal loop: exactly the previously active sources
whose name matches no removed source. -/
theorem pollRemove_mem (l : List Source) (st : Store) (h : Hooker)
    (w : Source) :
    w ∈ (pollRemove l st h).store
      ↔ w ∈ st ∧ ∀ u ∈ l, w.name ≠ u.name := by
  induction l generalizing st h with
  | nil => simp [pollRemove]
  | cons u rest ih =>
      rw [pollRemove]
      simp only [ih, mem_Del, List.mem_cons, forall_eq_or_imp, and_assoc]

/-- The fault map after the removal loop: consumed at every removed name,
untouched elsewhere. -/
theorem pollRemove_hooker (l : List Source) (st : Store) (h : Hooker)
    (n : String) :
    (pollRemove l st h).hooker n
      = if l.any (fun u => u.name == n) then none else h n := by
  induction l generalizing st h with
  | nil => simp [pollRemove]
  | cons u rest ih =>
      rw [pollRemove]
      simp only [ih, HookErr_snd, List.any_cons, beq_iff_eq]
      by_cases hn : u.name = n
      · subst hn
        by_cases hrest : rest.any (fun v => v.name == u.name) <;>
          simp [hrest]
      · have : ¬(n = u.name) := fun hh => hn hh.symm
        by_cases hrest : rest.any (fun v => v.name == n) <;>
          simp [hrest, hn, this]

/-- The removal loop's trace: a `Del` for every removed source. -/
theorem pollRemove_del_mem (l : List Source) (st : Store) (h : Hooker)
    (v : Source) (hv : v ∈ l) :
    Event.del v ∈ (pollRemove l st h).events := by
  induction l generalizing st h with
  | nil => cases hv
  | cons u rest ih =>
      rw [pollRemove]
      rcases List.mem_cons.mp hv with rfl | hv
      · exact List.mem_cons_self _ _
      · simp only [List.mem_cons]
        exact Or.inr (Or.inr (ih _ _ hv))

/-- The removal loop's trace: a fault consumption for every removed name. -/
theorem pollRemove_consume_mem (l : List Source) (st : Store) (h : Hooker)
    (v : Source) (hv : v ∈ l) :
    Event.consume v.name ∈ (pollRemove l st h).events := by
  induction l generalizing st h with
  | nil => cases hv
  | cons u rest ih =>
      rw [pollRemove]
      rcases List.mem_cons.mp hv with rfl | hv
      · simp
      · simp only [List.mem_cons]
        exact Or.inr (Or.inr (ih _ _ hv))

/-- The removal loop performs no `Put`. -/
theorem pollRemove_no_put (l : List Source) (st : Store) (h : Hooker)
    (v : Source) :
    Event.put v ∉ (pollRemove l st h).events := by
  induction l generalizing st h with
  | nil => simp [pollRemove]
  | cons u rest ih =>
      rw [pollRemove]
      simp [ih]

/-- Removal keeps active names duplicate-free. -/
theorem nodup_names_pollRemove (l : List Source) (st : Store) (h : Hooker)
    (hn : (st.map Source.name).Nodup) :
    (((pollRemove l st h).store.map Source.name)).Nodup := by
  induction l generalizing st h with
  | nil => simpa [pollRemove] using hn
  | cons u rest ih =>
      rw [pollRemove]
      exact ih _ _ (nodup_names_Del st u hn)

/-- The fault map after the suspect-collection loop: consumed at every active
name, untouched elsewhere. -/
theorem pollSuspects_hooker (l : List Source) (h : Hooker) (n : String) :
    (pollSuspects l h).hooker n
      = if l.any (fun u => u.name == n) then none else h n := by
  induction l generalizing h with
  | nil => simp [pollSuspects]
  | cons u rest ih =>
      rw [pollSuspects]
      simp only [ih, HookErr_snd, List.any_cons, beq_iff_eq]
      by_cases hn : u.name = n
      · subst hn
        by_cases hrest : rest.any (fun v => v.name == u.name) <;>
          simp [hrest]
      · have : ¬(n = u.name) := fun hh => hn hh.symm
        by_cases hrest : rest.any (fun v => v.name == n) <;>
          simp [hrest, hn, this]

/-- Every suspect is one of the active sources. -/
theorem pollSuspects_acc_subset (l : List Source) (h : Hooker)
    (w : Source) (hw : w ∈ (pollSuspects l h).acc) :
    w ∈ l := by
  induction l generalizing h with
  | nil => simpa [pollSuspects] using hw
  | cons u rest ih =>
      rw [pollSuspects] at hw
      simp only at hw
      cases he : (Hooker.HookErr h u.name).1 with
      | some e =>
          rw [he] at hw
          rcases List.mem_cons.mp hw with rfl | hw
          · exact List.mem_cons_self _ _
          · exact List.mem_cons_of_mem _ (ih _ hw)
      | none =>
          rw [he] at hw
          exact List.mem_cons_of_mem _ (ih _ hw)

/-- An active source with a pending fault is collected as a suspect (active
names being duplicate-free). -/
theorem pollSuspects_acc_mem (l : List Source) (h : Hooker)
    (src : Source) (f : hookErr)
    (hnd : (l.map Source.name).Nodup)
    (hsrc : src ∈ l) (hf : h src.name = some f) :
    src ∈ (pollSuspects l h).acc := by
  induction l generalizing h with
  | nil => cases hsrc
  | cons u rest ih =>
      rw [List.map_cons, List.nodup_cons] at hnd
      rw [pollSuspects]
      simp only
      rcases List.mem_cons.mp hsrc with rfl | hsrc
      · rw [HookErr_fst, hf]
        exact List.mem_cons_self _ _
      · have hne : src.name ≠ u.name := by
          intro hh
          exact hnd.1 (hh ▸ List.mem_map_of_mem Source.name hsrc)
        have hf' : (Hooker.HookErr h u.name).2 src.name = some f := by
          rw [HookErr_snd, if_neg hne, hf]
        have hmem := ih _ hnd.2 hsrc hf'
        cases he : (Hooker.HookErr h u.name).1 with
        | some e => exact List.mem_cons_of_mem _ hmem
        | none => exact hmem

/-- The suspect-collection loop performs no `Put`. -/
theorem pollSuspects_no_put (l : List Source) (h : Hooker) (v : Source) :
    Event.put v ∉ (pollSuspects l h).events := by
  induction l generalizing h with
  | nil => simp [pollSuspects]
  | cons u rest ih =>
      rw [pollSuspects]
      simp [ih]

/-- Membership after the re-validation loop: exactly the stored sources whose
name matches no failing suspect. -/
theorem pollRecheck_mem (check : Source → Confidence → Bool)
    (l : List Source) (st : Store) (w : Source) :
    w ∈ (pollRecheck check l st).store
      ↔ w ∈ st ∧ ∀ u ∈ l, check u .High = false → w.name ≠ u.name := by
  induction l generalizing st with
  | nil => simp [pollRecheck]
  | cons u rest ih =>
      cases hc : check u .High with
      | true =>
          rw [pollRecheck, if_pos hc, ih]
          constructor
          · rintro ⟨hw, hrest⟩
            refine ⟨hw, ?_⟩
            intro x hx
            rcases List.mem_cons.mp hx with rfl | hx
            · intro hfalse; rw [hc] at hfalse; cases hfalse
            · exact hrest x hx
          · rintro ⟨hw, hrest⟩
            exact ⟨hw, fun x hx => hrest x (List.mem_cons_of_mem _ hx)⟩
      | false =>
          rw [pollRecheck, if_neg (by simp [hc]), ih]
          constructor
          · rintro ⟨hw, hrest⟩
            rw [mem_Del] at hw
            refine ⟨hw.1, ?_⟩
            intro x hx
            rcases List.mem_cons.mp hx with rfl | hx
            · exact fun _ => hw.2
            · exact hrest x hx
          · rintro ⟨hw, hrest⟩
            refine ⟨?_, fun x hx => hrest x (List.mem_cons_of_mem _ hx)⟩
            rw [mem_Del]
            exact ⟨hw, hrest u (List.mem_cons_self _ _) hc⟩

/-- The re-validation loop performs no `Put`. -/
theorem pollRecheck_no_put (check : Source → Confidence → Bool)
    (l : List Source) (st : Store) (v : Source) :
    Event.put v ∉ (pollRecheck check l st).events := by
  induction l generalizing st with
  | nil => simp [pollRecheck]
  | cons u rest ih =>
      cases hc : check u .High with
      | true => rw [pollRecheck, if_pos hc]; exact ih _
      | false => rw [pollRecheck, if_neg (by simp [hc])]; simp [ih]

/-- In a list of sources with duplicate-free names, equal names force equal
elements. -/
theorem name_inj (l : List Source) (hnd : (l.map Source.name).Nodup)
    (u w : Source) (hu : u ∈ l) (hw : w ∈ l) (hn : u.name = w.name) :
    u = w :=
  List.inj_on_of_nodup_map hnd hu hw hn

/-- A source whose High-confidence check fails and which is not active cannot
become active through one `Poll` cycle. -/
theorem Poll_not_mem (env : PollEnv) (st : Store) (h : Hooker) (v : Source)
    (hc : env.check v .High = false) (hst : v ∉ st) :
    v ∉ (Poll env st h).store := by
  obtain ⟨provide, check⟩ := env
  cases provide with
  | error e => simpa [Poll] using hst
  | ok cur =>
      intro hmem
      simp only [Poll] at hmem
      rw [pollRecheck_mem] at hmem
      rw [pollRemove_mem] at hmem
      exact pollAdd_not_mem check _ st v hc hst hmem.1.1

/-- A source whose High-confidence check fails in every cycle never becomes
active, over any number of consecutive cycles. -/
theorem pollMany_not_mem (envs : List PollEnv) (st : Store) (h : Hooker)
    (v : Source) (hst : v ∉ st)
    (hc : ∀ env ∈ envs, env.check v .High = false) :
    v ∉ (pollMany envs st h).1 := by
  induction envs generalizing st h with
  | nil => simpa [pollMany] using hst
  | cons env rest ih =>
      rw [pollMany]
      exact ih _ _ (Poll_not_mem env st h v (hc env (List.mem_cons_self _ _)) hst)
        (fun e he => hc e (List.mem_cons_of_mem _ he))

/-- C8: When `Provide` returns an error, `Poll` returns that error, performs
no `Put`, `Del` or fault consumption, and leaves the active set and the fault
map unchanged. -/
theorem C8_provide_error_aborts (e : String)
    (check : Source → Confidence → Bool) (st : Store) (h : Hooker) :
    Poll { provide := .error e, check := check } st h
      = { err := some e, store := st, hooker := h, events := [] } := rfl

/-- C3: In a cycle whose `Provide` succeeded, a source of the `add` set is
`Put` into the store exactly when its High-confidence check succeeds; a
failing candidate does not abort the cycle (`Poll` still returns nil); and a
source absent from the store whose check fails in every cycle is never added,
over any number of consecutive cycles. -/
theorem C3_admission_gated_by_check (cur : List Source)
    (check : Source → Confidence → Bool) (st : Store) (h : Hooker)
    (v : Source) (hv : v ∈ (Diff st cur).1) :
    (Poll { provide := .ok cur, check := check } st h).err = none
    ∧ (Event.put v ∈ (Poll { provide := .ok cur, check := check } st h).events
        ↔ check v .High = true)
    ∧ (∀ (envs : List PollEnv) (st0 : Store) (h0 : Hooker),
        v ∉ st0 → (∀ env ∈ envs, env.check v .High = false) →
        v ∉ (pollMany envs st0 h0).1) := by
  refine ⟨rfl, ?_, ?_⟩
  · constructor
    · intro hmem
      simp only [Poll] at hmem
      rw [List.mem_append, List.mem_append, List.mem_append] at hmem
      rcases hmem with ((ha | hr) | hs) | hf
      · exact ((pollAdd_put_mem check _ st v).mp ha).2
      · exact absurd hr (pollRemove_no_put _ _ _ v)
      · exact absurd hs (pollSuspects_no_put _ _ v)
      · exact absurd hf (pollRecheck_no_put check _ _ v)
    · intro hcv
      simp only [Poll]
      rw [List.mem_append]
      left
      rw [List.mem_append]
      left
      rw [List.mem_append]
      left
      exact (pollAdd_put_mem check _ st v).mpr ⟨hv, hcv⟩
  · intro envs st0 h0 hst0 hc
    exact pollMany_not_mem envs st0 h0 v hst0 hc

/-- C3 witness. -/
theorem C3_admission_gated_by_check_witness :
    (Poll { provide := Except.ok [⟨"ifA", 1500⟩],
            check := fun _ _ => true } [] Hooker.emptyMap).err = none
    ∧ (Event.put ⟨"ifA", 1500⟩
        ∈ (Poll { provide := Except.ok [⟨"ifA", 1500⟩],
                  check := fun _ _ => true } [] Hooker.emptyMap).events
        ↔ true = true)
    ∧ ((⟨"ifA", 1500⟩ : Source)
        ∉ (pollMany
            [{ provide := Except.ok [⟨"ifA", 1500⟩], check := fun _ _ => false },
             { provide := Except.ok [⟨"ifA", 1500⟩], check := fun _ _ => false }]
            [] Hooker.emptyMap).1) :=
  ⟨(C3_admission_gated_by_check [⟨"ifA", 1500⟩] (fun _ _ => true) []
      Hooker.emptyMap ⟨"ifA", 1500⟩ (by decide)).1,
   (C3_admission_gated_by_check [⟨"ifA", 1500⟩] (fun _ _ => true) []
      Hooker.emptyMap ⟨"ifA", 1500⟩ (by decide)).2.1,
   (C3_admission_gated_by_check [⟨"ifA", 1500⟩] (fun _ _ => true) []
      Hooker.emptyMap ⟨"ifA", 1500⟩ (by decide)).2.2
     [{ provide := Except.ok [⟨"ifA", 1500⟩], check := fun _ _ => false },
      { provide := Except.ok [⟨"ifA", 1500⟩], check := fun _ _ => false }]
     [] Hooker.emptyMap (by decide) (by decide)⟩

/-- C4: In a cycle whose `Provide` succeeded, every source of the `remove`
set is `Del`eted from the store (and absent from the cycle's final active
set), and its pending fault is consumed in the same cycle (a `HookErr` call
is made for its name and the final fault map holds nothing under it). -/
theorem C4_removal_consumes_fault (cur : List Source)
    (check : Source → Confidence → Bool) (st : Store) (h : Hooker)
    (v : Source) (hv : v ∈ (Diff st cur).2) :
    Event.del v ∈ (Poll { provide := .ok cur, check := check } st h).events
    ∧ Event.consume v.name
        ∈ (Poll { provide := .ok cur, check := check } st h).events
    ∧ v ∉ (Poll { provide := .ok cur, check := check } st h).store
    ∧ (Poll { provide := .ok cur, check := check } st h).hooker v.name
        = none := by
  refine ⟨?_, ?_, ?_, ?_⟩
  · simp only [Poll]
    rw [List.mem_append]
    left
    rw [List.mem_append]
    left
    rw [List.mem_append]
    right
    exact pollRemove_del_mem _ _ _ v hv
  · simp only [Poll]
    rw [List.mem_append]
    left
    rw [List.mem_append]
    left
    rw [List.mem_append]
    right
    exact pollRemove_consume_mem _ _ _ v hv
  · intro hmem
    simp only [Poll] at hmem
    rw [pollRecheck_mem] at hmem
    rw [pollRemove_mem] at hmem
    exact hmem.1.2 v hv rfl
  · simp only [Poll]
    have h1 : (pollRemove (Diff st cur).2
        (pollAdd check (Diff st cur).1 st).store h).hooker v.name = none := by
      rw [pollRemove_hooker,
        if_pos (List.any_eq_true.mpr ⟨v, hv, by simp⟩)]
    rw [pollSuspects_hooker, h1, ite_self]

/-- C4 witness. -/
theorem C4_removal_consumes_fault_witness :
    Event.del ⟨"ifA", 1500⟩
      ∈ (Poll { provide := Except.ok [], check := fun _ _ => true }
          [⟨"ifA", 1500⟩] Hooker.emptyMap).events
    ∧ Event.consume (Source.name ⟨"ifA", 1500⟩)
        ∈ (Poll { provide := Except.ok [], check := fun _ _ => true }
            [⟨"ifA", 1500⟩] Hooker.emptyMap).events
    ∧ (⟨"ifA", 1500⟩ : Source)
        ∉ (Poll { provide := Except.ok [], check := fun _ _ => true }
            [⟨"ifA", 1500⟩] Hooker.emptyMap).store
    ∧ (Poll { provide := Except.ok [], check := fun _ _ => true }
          [⟨"ifA", 1500⟩] Hooker.emptyMap).hooker (Source.name ⟨"ifA", 1500⟩)
        = none :=
  C4_removal_consumes_fault [] (fun _ _ => true) [⟨"ifA", 1500⟩]
    Hooker.emptyMap ⟨"ifA", 1500⟩ (by decide)

/-- C5: In a cycle whose `Provide` succeeded, any source of the re-read
active list whose name carries a pending fault is collected as a suspect and
re-checked at High confidence; its fault is consumed by the end of the cycle;
if the re-check fails the source is deleted from the store, and if it
succeeds the source remains active in that same cycle. -/
theorem C5_suspect_revalidation (cur : List Source)
    (check : Source → Confidence → Bool) (st : Store) (h : Hooker)
    (src : Source) (f : hookErr)
    (hnd : (st.map Source.name).Nodup) :
    let r := pollRemove (Diff st cur).2 (pollAdd check (Diff st cur).1 st).store h
    let res := Poll { provide := .ok cur, check := check } st h
    src ∈ r.store → r.hooker src.name = some f →
      (src ∈ (pollSuspects r.store r.hooker).acc
       ∧ res.hooker src.name = none
       ∧ (check src .High = false → src ∉ res.store)
       ∧ (check src .High = true → src ∈ res.store)) := by
  intro r res hsrc hf
  have hnd2 : (r.store.map Source.name).Nodup :=
    nodup_names_pollRemove _ _ _ (nodup_names_pollAdd check _ st hnd)
  have hsus : src ∈ (pollSuspects r.store r.hooker).acc :=
    pollSuspects_acc_mem r.store r.hooker src f hnd2 hsrc hf
  refine ⟨hsus, ?_, ?_, ?_⟩
  · show (Poll { provide := .ok cur, check := check } st h).hooker src.name
      = none
    simp only [Poll]
    rw [pollSuspects_hooker,
      if_pos (List.any_eq_true.mpr ⟨src, hsrc, by simp⟩)]
  · intro hck
    show src ∉ (Poll { provide := .ok cur, check := check } st h).store
    simp only [Poll]
    rw [pollRecheck_mem]
    rintro ⟨-, hall⟩
    exact hall src hsus hck rfl
  · intro hck
    show src ∈ (Poll { provide := .ok cur, check := check } st h).store
    simp only [Poll]
    rw [pollRecheck_mem]
    refine ⟨hsrc, ?_⟩
    intro u hu hfu heq
    have hu' : u ∈ r.store := pollSuspects_acc_subset _ _ u hu
    have hequ : src = u := name_inj r.store hnd2 src u hsrc hu' heq
    rw [← hequ] at hfu
    rw [hck] at hfu
    cases hfu

/-- C5 witness. -/
theorem C5_suspect_revalidation_witness :
    let src : Source := ⟨"ifA", 1500⟩
    let f : hookErr :=
      { receivedAt := 3, ref := "ifA", network := "tcp", address := "",
        err := "reset" }
    let h : Hooker := Hooker.Add Hooker.emptyMap f
    let r := pollRemove (Diff [src] [src]).2
      (pollAdd (fun _ _ => true) (Diff [src] [src]).1 [src]).store h
    let res := Poll { provide := Except.ok [src],
                      check := fun _ _ => true } [src] h
    src ∈ (pollSuspects r.store r.hooker).acc
    ∧ res.hooker src.name = none
    ∧ (true = false → src ∉ res.store)
    ∧ (true = true → src ∈ res.store) :=
  C5_suspect_revalidation [⟨"ifA", 1500⟩] (fun _ _ => true) [⟨"ifA", 1500⟩]
    (Hooker.Add Hooker.emptyMap
      { receivedAt := 3, ref := "ifA", network := "tcp", address := "",
        err := "reset" })
    ⟨"ifA", 1500⟩
    { receivedAt := 3, ref := "ifA", network := "tcp", address := "",
      err := "reset" }
    (by decide) (by decide) (by decide)

/-- Shallow model of `Listener.Run`'s control flow. Iterations are indexed
from 0. At iteration `i` the body calls `Poll`, whose outcome `pollErr i` is
only logged, then reaches the `select`: if the outer context is observed
cancelled there (`cancelled i = true`), the loop returns `ctxErr` (the
cancellation cause, `ctx.Err()`); otherwise it sleeps one `PollInterval` and
starts iteration `i + 1`. `fuel` bounds how many iterations the model
unrolls, `i` doubles as the count of `Poll` calls already issued; the result
pairs the returned error (`none` meaning the fuel ran out with the loop still
running) with the total number of `Poll` calls issued. -/
def RunModel (ctxErr : String) (pollErr : Nat → Option String)
    (cancelled : Nat → Bool) : Nat → Nat → Option String × Nat
  | 0, i => (none, i)
  | fuel + 1, i =>
    let _pollOutcome := pollErr i
    if cancelled i then (some ctxErr, i + 1)
    else RunModel ctxErr pollErr cancelled fuel (i + 1)

/-- `Run` ignores the errors `Poll` returns: the loop's result and its number
of `Poll` calls do not depend on them. -/
theorem RunModel_pollErr_irrelevant (ctxErr : String)
    (p q : Nat → Option String) (cancelled : Nat → Bool) (fuel i : Nat) :
    RunModel ctxErr p cancelled fuel i = RunModel ctxErr q cancelled fuel i := by
  induction fuel generalizing i with
  | zero => rfl
  | succ fuel ih =>
      rw [RunModel, RunModel]
      cases hc : cancelled i with
      | true => rfl
      | false => simpa using ih (i + 1)

/-- The only error `Run` ever returns is the cancellation cause. -/
theorem RunModel_err_eq (ctxErr : String) (p : Nat → Option String)
    (cancelled : Nat → Bool) (fuel i : Nat) (e : String) (n : Nat)
    (hres : RunModel ctxErr p cancelled fuel i = (some e, n)) :
    e = ctxErr := by
  induction fuel generalizing i with
  | zero => cases hres
  | succ fuel ih =>
      rw [RunModel] at hres
      cases hc : cancelled i with
      | true =>
          rw [if_pos hc] at hres
          cases hres
          rfl
      | false =>
          rw [if_neg (by simp [hc])] at hres
          exact ih (i + 1) hres

/-- Once cancellation is observable at iteration `j`, the loop returns the
cancellation cause and issues no `Poll` call beyond iteration `j`. -/
theorem RunModel_cancel_stops (ctxErr : String) (p : Nat → Option String)
    (cancelled : Nat → Bool) (fuel i j : Nat)
    (hij : i ≤ j) (hj : cancelled j = true) (hfuel : j < i + fuel) :
    (RunModel ctxErr p cancelled fuel i).1 = some ctxErr
    ∧ (RunModel ctxErr p cancelled fuel i).2 ≤ j + 1 := by
  induction fuel generalizing i with
  | zero => omega
  | succ fuel ih =>
      rw [RunModel]
      cases hc : cancelled i with
      | true =>
          rw [if_pos rfl]
          exact ⟨rfl, by omega⟩
      | false =>
          rw [if_neg (fun hh => nomatch hh)]
          have hne : i ≠ j := fun hh => by rw [hh, hj] at hc; cases hc
          exact ih (i + 1) (by omega) (by omega)

/-- C7: A `Poll` error never makes `Run` return — the loop's outcome and its
`Poll` count are independent of the poll-error schedule and any returned
error is the cancellation cause; and once the outer context is cancelled
(observable at iteration `j`), `Run` returns the cancellation cause at that
iteration's `select` — within one sleep interval — issuing no `Poll` call
beyond iteration `j`. -/
theorem C7_run_terminates_only_on_cancel (ctxErr : String)
    (p q : Nat → Option String) (cancelled : Nat → Bool)
    (fuel j : Nat) (e : String) (n : Nat) :
    (RunModel ctxErr p cancelled fuel 0 = RunModel ctxErr q cancelled fuel 0)
    ∧ (RunModel ctxErr p cancelled fuel 0 = (some e, n) → e = ctxErr)
    ∧ (cancelled j = true → j < fuel →
        (RunModel ctxErr p cancelled fuel 0).1 = some ctxErr
        ∧ (RunModel ctxErr p cancelled fuel 0).2 ≤ j + 1) :=
  ⟨RunModel_pollErr_irrelevant ctxErr p q cancelled fuel 0,
   fun hres => RunModel_err_eq ctxErr p cancelled fuel 0 e n hres,
   fun hj hfuel =>
     RunModel_cancel_stops ctxErr p cancelled fuel 0 j (Nat.zero_le j) hj
       (by omega)⟩

/-- C7 witness. -/
theorem C7_run_terminates_only_on_cancel_witness :
    (RunModel "context canceled" (fun _ => some "poll failure")
        (fun k => k == 2) 5 0
      = RunModel "context canceled" (fun _ => none) (fun k => k == 2) 5 0)
    ∧ ("context canceled" = "context canceled")
    ∧ ((RunModel "context canceled" (fun _ => some "poll failure")
          (fun k => k == 2) 5 0).1 = some "context canceled"
        ∧ (RunModel "context canceled" (fun _ => some "poll failure")
            (fun k => k == 2) 5 0).2 ≤ 2 + 1) :=
  ⟨(C7_run_terminates_only_on_cancel "context canceled"
      (fun _ => some "poll failure") (fun _ => none) (fun k => k == 2)
      5 2 "context canceled" 3).1,
   (C7_run_terminates_only_on_cancel "context canceled"
      (fun _ => some "poll failure") (fun _ => none) (fun k => k == 2)
      5 2 "context canceled" 3).2.1 (by decide),
   (C7_run_terminates_only_on_cancel "context canceled"
      (fun _ => some "poll failure") (fun _ => none) (fun k => k == 2)
      5 2 "context canceled" 3).2.2 (by decide) (by decide)⟩

/-- Embedding of `PoliciesInput` (remote package): the JSON body
`{source_id, target, reason, issuer}` accepted by the `POST /policies/...`
handlers. The handlers are modelled after a successful decode; a decode
failure is a 400 before any of the logic below runs. -/
structure PoliciesInput where
  sourceID : String
  target : String
  reason : String
  issuer : String
deriving DecidableEq, Repr

/-- The four policy kinds of the store package. -/
inductive PolicyKind where
  | block
  | sticky
  | reserved
  | avoid
deriving DecidableEq, Repr

/-- Modelled from the spec: `store.Policy` is outside the given files. A
policy is a rule of one of four kinds authored by an issuer, optionally
carrying a reason; Block/Reserved/Avoid carry a source identifier,
Reserved/Avoid carry a destination, Sticky resolves source and target
dynamically through the bind history, so both stay empty here. -/
structure Policy where
  kind : PolicyKind
  issuer : String
  sourceID : String
  target : String
  reason : String
deriving DecidableEq, Repr

/-- Modelled from the spec: `store.NewBlockPolicy(issuer, sourceID)`. -/
def NewBlockPolicy (issuer sourceID : String) : Policy :=
  { kind := .block, issuer := issuer, sourceID := sourceID, target := "",
    reason := "" }

/-- Modelled from the spec: `store.NewStickyPolicy(issuer, bindHistory)`; the
bind-history query replaces any static source or target. -/
def NewStickyPolicy (issuer : String) : Policy :=
  { kind := .sticky, issuer := issuer, sourceID := "", target := "",
    reason := "" }

/-- Modelled from the spec: `store.NewReservedPolicy(issuer, sourceID,
target)`. -/
def NewReservedPolicy (issuer sourceID target : String) : Policy :=
  { kind := .reserved, issuer := issuer, sourceID := sourceID,
    target := target, reason := "" }

/-- Modelled from the spec: `store.NewAvoidPolicy(issuer, sourceID,
target)`. -/
def NewAvoidPolicy (issuer sourceID target : String) : Policy :=
  { kind := .avoid, issuer := issuer, sourceID := sourceID, target := target,
    reason := "" }

/-- Modelled from the spec: `store.SourceStore.AppendPolicy` validates and
stores a policy. Block/Reserved/Avoid require a non-empty source identifier,
Reserved/Avoid additionally require a non-empty destination, Sticky requires
neither; a valid policy is appended to the live policy set, an invalid one
yields a validation error with no mutation. -/
def AppendPolicy (ps : List Policy) (p : Policy) :
    Except String (List Policy) :=
  match p.kind with
  | .block =>
      if p.sourceID = "" then
        .error "validation error: source_id cannot be empty"
      else .ok (ps ++ [p])
  | .reserved =>
      if p.sourceID = "" then
        .error "validation error: source_id cannot be empty"
      else if p.target = "" then
        .error "validation error: target cannot be empty"
      else .ok (ps ++ [p])
  | .avoid =>
      if p.sourceID = "" then
        .error "validation error: source_id cannot be empty"
      else if p.target = "" then
        .error "validation error: target cannot be empty"
      else .ok (ps ++ [p])
  | .sticky => .ok (ps ++ [p])

/-- The observable HTTP outcome of a policy-creation handler: a 400 carrying
an error message, or a 201 carrying the created policy. -/
inductive PolicyResponse where
  | badRequest (msg : String)
  | created (p : Policy)
deriving DecidableEq, Repr

/-- Embedding of `handlePolicy`: `AppendPolicy` the policy; on error respond
400 leaving the policy set unchanged, otherwise respond 201 with the created
policy. -/
def handlePolicy (ps : List Policy) (p : Policy) :
    PolicyResponse × List Policy :=
  match AppendPolicy ps p with
  | .error e => (.badRequest e, ps)
  | .ok ps2 => (.created p, ps2)

/-- Embedding of `makePoliciesBlockHandler`'s body after a successful decode:
an empty `source_id` is rejected with 400; otherwise the block policy is
built, its reason set, and handed to `handlePolicy`. -/
def makePoliciesBlockHandler (ps : List Policy) (payload : PoliciesInput) :
    PolicyResponse × List Policy :=
  if payload.sourceID = "" then
    (.badRequest "validation error: source_id cannot be empty", ps)
  else
    handlePolicy ps
      { NewBlockPolicy payload.issuer payload.sourceID with
        reason := payload.reason }

/-- Embedding of `makePoliciesStickyHandler`'s body after a successful
decode: no field validation; the sticky policy is built (no reason set) and
handed to `handlePolicy`. -/
def makePoliciesStickyHandler (ps : List Policy) (payload : PoliciesInput) :
    PolicyResponse × List Policy :=
  handlePolicy ps (NewStickyPolicy payload.issuer)

/-- Embedding of `makePoliciesReserveHandler`'s body after a successful
decode: empty `source_id`, then empty `target`, are rejected with 400;
otherwise the reserved policy is built, its reason set, and handed to
`handlePolicy`. -/
def makePoliciesReserveHandler (ps : List Policy) (payload : PoliciesInput) :
    PolicyResponse × List Policy :=
  if payload.sourceID = "" then
    (.badRequest "validation error: source_id cannot be empty", ps)
  else if payload.target = "" then
    (.badRequest "validation error: target cannot be empty", ps)
  else
    handlePolicy ps
      { NewReservedPolicy payload.issuer payload.sourceID payload.target with
        reason := payload.reason }

/-- Embedding of `makePoliciesAvoidHandler`'s body after a successful decode:
empty `source_id`, then empty `target`, are rejected with 400; otherwise the
avoid policy is built, its reason set, and handed to `handlePolicy`. -/
def makePoliciesAvoidHandler (ps : List Policy) (payload : PoliciesInput) :
    PolicyResponse × List Policy :=
  if payload.sourceID = "" then
    (.badRequest "validation error: source_id cannot be empty", ps)
  else if payload.target = "" then
    (.badRequest "validation error: target cannot be empty", ps)
  else
    handlePolicy ps
      { NewAvoidPolicy payload.issuer payload.sourceID payload.target with
        reason := payload.reason }

/-- A successful `AppendPolicy` appends exactly the given policy. -/
theorem AppendPolicy_ok (ps : List Policy) (p : Policy) (ps2 : List Policy)
    (h : AppendPolicy ps p = .ok ps2) : ps2 = ps ++ [p] := by
  unfold AppendPolicy at h
  cases hk : p.kind <;> simp only [hk] at h
  case block =>
    split at h
    · cases h
    · exact (Except.ok.inj h).symm
  case reserved =>
    split at h
    · cases h
    · split at h
      · cases h
      · exact (Except.ok.inj h).symm
  case avoid =>
    split at h
    · cases h
    · split at h
      · cases h
      · exact (Except.ok.inj h).symm
  case sticky => exact (Except.ok.inj h).symm

/-- Every handler outcome routed through `handlePolicy` is either a 400
leaving the policy set unchanged or a 201 appending exactly the created
policy. -/
theorem handlePolicy_shape (ps : List Policy) (p : Policy) :
    (∃ m, handlePolicy ps p = (.badRequest m, ps))
    ∨ (∃ p2, handlePolicy ps p = (.created p2, ps ++ [p2])) := by
  cases hres : AppendPolicy ps p with
  | error e =>
      left
      exact ⟨e, by unfold handlePolicy; rw [hres]⟩
  | ok ps2 =>
      right
      refine ⟨p, ?_⟩
      unfold handlePolicy
      rw [hres, AppendPolicy_ok ps p ps2 hres]

/-- C9: A Block policy with an empty source identifier is rejected with a
validation error (400) and no mutation; a Reserved or Avoid policy with an
empty source identifier or an empty destination is rejected with a validation
error (400) and no mutation; a Sticky policy with empty source identifier and
empty destination is accepted; and every handler outcome is either a 400
leaving the policy set unchanged or a 201 appending exactly the created
policy. -/
theorem C9_policy_validation (ps : List Policy) (pl pl2 pl3 : PoliciesInput)
    (hs : pl.sourceID = "") (ht : pl.target = "") :
    makePoliciesBlockHandler ps pl
      = (.badRequest "validation error: source_id cannot be empty", ps)
    ∧ (pl2.sourceID = "" ∨ pl2.target = "" →
        (∃ m, makePoliciesReserveHandler ps pl2 = (.badRequest m, ps))
        ∧ (∃ m, makePoliciesAvoidHandler ps pl2 = (.badRequest m, ps)))
    ∧ makePoliciesStickyHandler ps pl
        = (.created (NewStickyPolicy pl.issuer),
           ps ++ [NewStickyPolicy pl.issuer])
    ∧ ((∃ m, makePoliciesBlockHandler ps pl3 = (.badRequest m, ps))
        ∨ (∃ p, makePoliciesBlockHandler ps pl3 = (.created p, ps ++ [p])))
    ∧ ((∃ m, makePoliciesStickyHandler ps pl3 = (.badRequest m, ps))
        ∨ (∃ p, makePoliciesStickyHandler ps pl3 = (.created p, ps ++ [p])))
    ∧ ((∃ m, makePoliciesReserveHandler ps pl3 = (.badRequest m, ps))
        ∨ (∃ p, makePoliciesReserveHandler ps pl3 = (.created p, ps ++ [p])))
    ∧ ((∃ m, makePoliciesAvoidHandler ps pl3 = (.badRequest m, ps))
        ∨ (∃ p, makePoliciesAvoidHandler ps pl3
            = (.created p, ps ++ [p]))) := by
  refine ⟨?_, ?_, ?_, ?_, ?_, ?_, ?_⟩
  · unfold makePoliciesBlockHandler
    rw [if_pos hs]
  · intro hor
    constructor
    · by_cases h2s : pl2.sourceID = ""
      · exact ⟨_, by unfold makePoliciesReserveHandler; rw [if_pos h2s]⟩
      · have h2t : pl2.target = "" := hor.resolve_left h2s
        exact ⟨_, by
          unfold makePoliciesReserveHandler
          rw [if_neg h2s, if_pos h2t]⟩
    · by_cases h2s : pl2.sourceID = ""
      · exact ⟨_, by unfold makePoliciesAvoidHandler; rw [if_pos h2s]⟩
      · have h2t : pl2.target = "" := hor.resolve_left h2s
        exact ⟨_, by
          unfold makePoliciesAvoidHandler
          rw [if_neg h2s, if_pos h2t]⟩
  · rfl
  · by_cases h3s : pl3.sourceID = ""
    · exact Or.inl ⟨_, by unfold makePoliciesBlockHandler; rw [if_pos h3s]⟩
    · unfold makePoliciesBlockHandler
      rw [if_neg h3s]
      exact handlePolicy_shape ps _
  · exact handlePolicy_shape ps _
  · by_cases h3s : pl3.sourceID = ""
    · exact Or.inl ⟨_, by unfold makePoliciesReserveHandler; rw [if_pos h3s]⟩
    · by_cases h3t : pl3.target = ""
      · exact Or.inl ⟨_, by
          unfold makePoliciesReserveHandler
          rw [if_neg h3s, if_pos h3t]⟩
      · unfold makePoliciesReserveHandler
        rw [if_neg h3s, if_neg h3t]
        exact handlePolicy_shape ps _
  · by_cases h3s : pl3.sourceID = ""
    · exact Or.inl ⟨_, by unfold makePoliciesAvoidHandler; rw [if_pos h3s]⟩
    · by_cases h3t : pl3.target = ""
      · exact Or.inl ⟨_, by
          unfold makePoliciesAvoidHandler
          rw [if_neg h3s, if_pos h3t]⟩
      · unfold makePoliciesAvoidHandler
        rw [if_neg h3s, if_neg h3t]
        exact handlePolicy_shape ps _

/-- C9 witness. -/
theorem C9_policy_validation_witness :
    makePoliciesBlockHandler [] ⟨"", "", "why", "admin"⟩
      = (.badRequest "validation error: source_id cannot be empty", [])
    ∧ ((∃ m, makePoliciesReserveHandler [] ⟨"eth0", "", "", "op"⟩
          = (.badRequest m, []))
        ∧ (∃ m, makePoliciesAvoidHandler [] ⟨"eth0", "", "", "op"⟩
            = (.badRequest m, [])))
    ∧ makePoliciesStickyHandler [] ⟨"", "", "why", "admin"⟩
        = (.created (NewStickyPolicy "admin"), [] ++ [NewStickyPolicy "admin"])
    ∧ ((∃ m, makePoliciesBlockHandler []
          ⟨"eth0", "example.com:443", "maintenance", "op"⟩
          = (.badRequest m, []))
        ∨ (∃ p, makePoliciesBlockHandler []
            ⟨"eth0", "example.com:443", "maintenance", "op"⟩
            = (.created p, [] ++ [p])))
    ∧ ((∃ m, makePoliciesStickyHandler []
          ⟨"eth0", "example.com:443", "maintenance", "op"⟩
          = (.badRequest m, []))
        ∨ (∃ p, makePoliciesStickyHandler []
            ⟨"eth0", "example.com:443", "maintenance", "op"⟩
            = (.created p, [] ++ [p])))
    ∧ ((∃ m, makePoliciesReserveHandler []
          ⟨"eth0", "example.com:443", "maintenance", "op"⟩
          = (.badRequest m, []))
        ∨ (∃ p, makePoliciesReserveHandler []
            ⟨"eth0", "example.com:443", "maintenance", "op"⟩
            = (.created p, [] ++ [p])))
    ∧ ((∃ m, makePoliciesAvoidHandler []
          ⟨"eth0", "example.com:443", "maintenance", "op"⟩
          = (.badRequest m, []))
        ∨ (∃ p, makePoliciesAvoidHandler []
            ⟨"eth0", "example.com:443", "maintenance", "op"⟩
            = (.created p, [] ++ [p]))) := by
  have h := C9_policy_validation [] ⟨"", "", "why", "admin"⟩
    ⟨"eth0", "", "", "op"⟩ ⟨"eth0", "example.com:443", "maintenance", "op"⟩
    rfl rfl
  exact ⟨h.1, h.2.1 (Or.inr rfl), h.2.2.1, h.2.2.2.1, h.2.2.2.2.1,
    h.2.2.2.2.2.1, h.2.2.2.2.2.2⟩

/-- C10: For arbitrary source lists (duplicated names allowed), `add` is an
order-preserving subsequence of `cur`, `remove` is an order-preserving
subsequence of `old`, no element of `add` has a name occurring in `old`, and
no element of `remove` has a name occurring in `cur`. -/
theorem C10_diff_sublists (old cur : List Source) :
    ((Diff old cur).1.Sublist cur)
    ∧ ((Diff old cur).2.Sublist old)
    ∧ (∀ v ∈ (Diff old cur).1, ∀ w ∈ old, w.name ≠ v.name)
    ∧ (∀ v ∈ (Diff old cur).2, ∀ w ∈ cur, w.name ≠ v.name) := by
  refine ⟨?_, ?_, ?_, ?_⟩
  · rw [Diff_eq]; exact List.filter_sublist cur
  · rw [Diff_eq]; exact List.filter_sublist old
  · intro v hv
    rw [Diff_eq] at hv
    have := List.of_mem_filter hv
    simp only [Bool.not_eq_true', List.any_eq_false, beq_iff_eq] at this
    exact this
  · intro v hv
    rw [Diff_eq] at hv
    have := List.of_mem_filter hv
    simp only [Bool.not_eq_true', List.any_eq_false, beq_iff_eq] at this
    exact this
